import Mathlib

/-!
Verification of the subtitle chunk/translate/merge pipeline of the
subtiltes-translator repository.

The repository code embedded here:
- src/src/subtiltes_translator/utils.py : FileType, get_file_type,
  split_subtitle_file, split_srt_file, merge_subtitle_files, merge_srt_files
- src/src/subtiltes_translator/gemini.py : generate_content, translate_subtitle

The SRT codec (srt.parse / srt.compose) is the third-party srt library and its
code is not under src/; it is modelled from the spec (sections 4.1 and 6):
blocks of index line, timing line, text lines, separated by a blank line,
with serialization preserving cue index, timestamps and text exactly.

Effects are made explicit: the file system is an association list from path to
content, the remote translation service is a function from the index of the
remote call to the response text, and the per-run remote-call counter, the
uploaded/deleted payload handles and the progress reports are threaded through
a state record.
-/

namespace SubTrans

/-- One subtitle entry (the srt library Subtitle: index, start, end, content).
Timestamps are modelled in milliseconds. -/
structure Cue where
  index : Nat
  start : Nat
  stop : Nat
  content : String
deriving DecidableEq, Repr

/-- Error kinds raised by the pipeline: ValueError for an unrecognized
extension (utils.py line 23), NotImplementedError for ASS (utils.py line 35),
and srt.SRTParseError for unparsable subtitle text. -/
inductive Err where
  | unsupported : String → Err
  | notImplemented : Err
  | parseError : Err
deriving DecidableEq, Repr

/-- FileType enum (utils.py lines 9-11). -/
inductive FileType where
  | SRT
  | ASS
deriving DecidableEq, Repr

/-- The enum value strings (already lowercase, so value.lower() = value). -/
def FileType.value : FileType → String
  | .SRT => "srt"
  | .ASS => "ass"

/-! ## Decimal digit printing and reading (for index lines and timestamps) -/

/-- The character of a decimal digit d < 10. -/
def digitChar (d : Nat) : Char := Char.ofNat (48 + d)

/-- Big-endian decimal digits of n, fuel-based so it evaluates in the kernel. -/
def natCharsAux : Nat → Nat → List Char
  | 0, _ => []
  | fuel + 1, n =>
    if n < 10 then [digitChar n]
    else natCharsAux fuel (n / 10) ++ [digitChar (n % 10)]

/-- The decimal representation of n as characters. -/
def natChars (n : Nat) : List Char := natCharsAux (n + 1) n

/-- n printed with leading zeros to width w (printf %0wd). -/
def padZeros (w n : Nat) : List Char :=
  List.replicate (w - (natChars n).length) '0' ++ natChars n

/-- Is c one of the characters 0-9. -/
def isDigitChar (c : Char) : Bool := decide (48 ≤ c.toNat ∧ c.toNat ≤ 57)

/-- Read a maximal digit prefix, accumulating its decimal value. -/
def readDigitsAux : List Char → Nat → Nat × List Char
  | [], acc => (acc, [])
  | c :: cs, acc =>
    if isDigitChar c then readDigitsAux cs (10 * acc + (c.toNat - 48))
    else (acc, c :: cs)

/-- Read a nonempty maximal digit prefix and its decimal value. -/
def readDigits (l : List Char) : Option (Nat × List Char) :=
  match l with
  | [] => none
  | c :: _ =>
    if isDigitChar c then some (readDigitsAux l 0) else none

/-- The next character, if any, is not a digit (so a maximal digit munch
stops exactly here). -/
def headNonDigit (l : List Char) : Prop :=
  ∀ c, l.head? = some c → isDigitChar c = false

/-! ## Line and block scanning -/

/-- Split at the first newline: (line, some rest) with the newline consumed,
or (whole input, none) if there is no newline. -/
def takeLine : List Char → List Char × Option (List Char)
  | [] => ([], none)
  | c :: cs =>
    if c = '\n' then ([], some cs)
    else
      let p := takeLine cs
      (c :: p.1, p.2)

/-- Split at the first blank line (two consecutive newlines): (block content,
some rest) with the two newlines consumed, or (whole input, none). -/
def breakBlank : List Char → List Char × Option (List Char)
  | [] => ([], none)
  | c :: cs =>
    if c = '\n' ∧ cs.head? = some '\n' then ([], some cs.tail)
    else
      let p := breakBlank cs
      (c :: p.1, p.2)

/-- Does the text contain two consecutive newlines (an embedded blank line). -/
def hasNlNl : List Char → Bool
  | [] => false
  | c :: cs =>
    if c = '\n' ∧ cs.head? = some '\n' then true else hasNlNl cs

/-- Strip exactly the given prefix, or fail. -/
def expectList : List Char → List Char → Option (List Char)
  | [], l => some l
  | _ :: _, [] => none
  | p :: ps, c :: cs => if c = p then expectList ps cs else none

/-! ## The SRT codec.
Modelled from the spec: the srt library (srt.parse / srt.compose) is not part
of src/; spec sections 4.1 and 6 describe the format and require serialization
to preserve index, timestamps and text exactly (round-trip law), with no
renumbering or re-sorting (spec sections 4.2 and 4.4). -/

/-- The " --> " separator of a timing line. -/
def arrowChars : List Char := [' ', '-', '-', '>', ' ']

/-- Modelled from the spec: srt timestamp HH:MM:SS,mmm of a time in
milliseconds (hours take more than two digits when needed). -/
def srt_timestamp (ms : Nat) : List Char :=
  padZeros 2 (ms / 3600000) ++
    ':' :: (padZeros 2 (ms / 60000 % 60) ++
      ':' :: (padZeros 2 (ms / 1000 % 60) ++
        ',' :: padZeros 3 (ms % 1000)))

/-- The timing line of a cue: start --> end. -/
def timingLine (c : Cue) : List Char :=
  srt_timestamp c.start ++ (arrowChars ++ srt_timestamp c.stop)

/-- Modelled from the spec: one serialized SRT block - index line, timing
line, content lines, terminated by a blank line. -/
def composeBlock (c : Cue) : List Char :=
  natChars c.index ++
    '\n' :: (timingLine c ++ '\n' :: (c.content.data ++ ['\n', '\n']))

/-- Modelled from the spec: serialization of a cue sequence (characters). -/
def composeChars (cues : List Cue) : List Char :=
  (cues.map composeBlock).flatten

/-- Modelled from the spec: srt.compose - serialize a cue sequence to text,
preserving order and indices (spec 4.1, 4.4). -/
def compose (cues : List Cue) : String := String.mk (composeChars cues)

/-- Parse one timestamp HH:MM:SS,mmm; returns the time in milliseconds and
the unconsumed rest. -/
def parseTimestamp (l : List Char) : Option (Nat × List Char) :=
  match readDigits l with
  | none => none
  | some (h, r1) =>
    match r1 with
    | [] => none
    | c :: r2 =>
      if c = ':' then
        match readDigits r2 with
        | some (m, c2 :: r3) =>
          if c2 = ':' then
            match readDigits r3 with
            | some (s, c3 :: r4) =>
              if c3 = ',' then
                match readDigits r4 with
                | some (ms, r5) =>
                  some (h * 3600000 + m * 60000 + s * 1000 + ms, r5)
                | none => none
              else none
            | _ => none
          else none
        | _ => none
      else none

/-- Parse a full timing line start --> end. -/
def parseTsLine (l : List Char) : Option (Nat × Nat) :=
  match parseTimestamp l with
  | none => none
  | some (s, r) =>
    match expectList arrowChars r with
    | none => none
    | some r2 =>
      match parseTimestamp r2 with
      | some (e, []) => some (s, e)
      | _ => none

/-- Parse one SRT block: index line, timing line, then content up to the
terminating blank line (or end of input). Returns the cue and the rest after
the blank line, if any. -/
def parseBlock (l : List Char) : Option (Cue × Option (List Char)) :=
  match takeLine l with
  | (_, none) => none
  | (idxLine, some r1) =>
    match readDigits idxLine with
    | some (i, []) =>
      match takeLine r1 with
      | (_, none) => none
      | (tsLine, some r2) =>
        match parseTsLine tsLine with
        | none => none
        | some (s, e) =>
          let p := breakBlank r2
          some (⟨i, s, e, String.mk p.1⟩, p.2)
    | _ => none

/-- Parse a sequence of SRT blocks (fuel-based; each block consumes at least
one character, so fuel = length + 1 always suffices). -/
def parseCuesAux : Nat → List Char → Option (List Cue)
  | _, [] => some []
  | 0, _ => none
  | fuel + 1, l =>
    match parseBlock l with
    | none => none
    | some (c, none) => some [c]
    | some (c, some rest) =>
      match parseCuesAux fuel rest with
      | none => none
      | some cs => some (c :: cs)

/-- Modelled from the spec: srt.parse - parse subtitle text into cues, none
standing for a raised SRTParseError (spec 4.1). -/
def parse (s : String) : Option (List Cue) :=
  parseCuesAux (s.data.length + 1) s.data

/-- A cue text representable in the SRT block format: it contains no blank
line (which would terminate the block early) and does not end in a newline
(which would merge with the block separator). -/
def ContentOk (c : Cue) : Prop :=
  hasNlNl c.content.data = false ∧ c.content.data.getLast? ≠ some '\n'

instance (c : Cue) : Decidable (ContentOk c) := by
  unfold ContentOk
  infer_instance

/-! ## Fenced code block extraction (gemini.py lines 39-41) -/

/-- The backtick character. -/
def tick : Char := Char.ofNat 96

/-- Three backticks, the fence delimiter. -/
def ticks : List Char := [tick, tick, tick]

/-- Do the first three characters form a fence. -/
def startsTicks (l : List Char) : Bool := l.take 3 = ticks

/-- Split at the first (leftmost) fence occurrence: some (before, after) with
the three backticks consumed, or none when there is no fence. This is the
splitting step of Python text.split on the fence string. -/
def breakFence : List Char → Option (List Char × List Char)
  | [] => none
  | c :: cs =>
    if startsTicks (c :: cs) then some ([], cs.drop 2)
    else
      match breakFence cs with
      | some (a, b) => some (c :: a, b)
      | none => none

/-- Does the text contain a fence anywhere. -/
def hasFenceB : List Char → Bool
  | [] => false
  | c :: cs => startsTicks (c :: cs) || hasFenceB cs

/-- gemini.py lines 39-41: if the fence string occurs in the response text,
keep text.split(fence)[1] - the content between the first and second fence
occurrence, or everything after the first occurrence when it is the only one;
otherwise keep the text whole. -/
def stripFence (text : String) : String :=
  match breakFence text.data with
  | none => text
  | some (_, rest) =>
    match breakFence rest with
    | none => String.mk rest
    | some (b, _) => String.mk b

/-! ## File system model: association list from path to content, newest
entry first (a write shadows earlier entries). -/

/-- Look a path up in the file system. -/
def lookupFs (fs : List (String × String)) (p : String) : Option String :=
  match fs with
  | [] => none
  | (k, v) :: rest => if k = p then some v else lookupFs rest p

/-- Write (create or overwrite) a file. -/
def writeFs (fs : List (String × String)) (p v : String) :
    List (String × String) :=
  (p, v) :: fs

/-! ## Path helpers (pathlib.Path stem / suffix / with_name, os.path). -/

/-- The final path component (text after the last slash). -/
def afterLastSlash (l : List Char) : List Char :=
  (l.reverse.takeWhile (fun c => c != '/')).reverse

/-- The directory part including the trailing slash (empty when the path has
no slash). -/
def dirPart (s : String) : String :=
  String.mk (s.data.reverse.dropWhile (fun c => c != '/')).reverse

/-- Characters before the first dot, and the rest after it if a dot exists. -/
def spanNoDot : List Char → List Char × Option (List Char)
  | [] => ([], none)
  | c :: cs =>
    if c = '.' then ([], some cs)
    else
      let p := spanNoDot cs
      (c :: p.1, p.2)

/-- pathlib name splitting: (stem, suffix) of a file name. The suffix is the
part from the last dot on, provided that dot is neither the first nor the
last character of the name; otherwise the suffix is empty. -/
def stemSuffix (name : List Char) : List Char × List Char :=
  match spanNoDot name.reverse with
  | (_, none) => (name, [])
  | (extRev, some restRev) =>
    if restRev = [] then (name, [])
    else if extRev = [] then (name, [])
    else (restRev.reverse, '.' :: extRev.reverse)

/-- pathlib.Path(s).stem. -/
def stem (s : String) : String :=
  String.mk (stemSuffix (afterLastSlash s.data)).1

/-- pathlib.Path(s).suffix (with its dot). -/
def pathSuffix (s : String) : String :=
  String.mk (stemSuffix (afterLastSlash s.data)).2

/-- Is suf a prefix of l (character lists). -/
def isPrefixL : List Char → List Char → Bool
  | [], _ => true
  | _ :: _, [] => false
  | a :: as, b :: bs => a = b && isPrefixL as bs

/-- Python str.endswith. -/
def endswith (s suf : String) : Bool :=
  isPrefixL suf.data.reverse s.data.reverse

/-! ## utils.py -/

/-- utils.py lines 14-23: file type from the file name extension; an
unrecognized extension raises ValueError. -/
def get_file_type (file_path : String) : Except Err FileType :=
  if endswith file_path ".srt" then .ok .SRT
  else if endswith file_path ".ass" then .ok .ASS
  else .error (.unsupported file_path)

/-- utils.py line 50: the batch file name
tmp_dir joined with {stem}_{start index + 1 padded to 8 digits}.srt. -/
def batchFileName (tmp_dir filestem : String) (i : Nat) : String :=
  tmp_dir ++ "/" ++ filestem ++ "_" ++ String.mk (padZeros 8 (i + 1)) ++ ".srt"

/-- utils.py lines 38-55, split_srt_file: parse the input file content, then
for i in range(0, len(srt_data), 100) write srt.compose(srt_data[i : i + 100])
to its batch file. Here range(0, N, 100) is rendered as the multiples
100 * k for k < ceil(N / 100), and the returned list carries each batch file
path with the content written to it; none models a raised SRTParseError. -/
def split_srt_file (subtitle_file tmp_dir : String) (content : String) :
    Option (List (String × String)) :=
  (parse content).map fun srt_data =>
    (List.range ((srt_data.length + 99) / 100)).map fun k =>
      (batchFileName tmp_dir (stem subtitle_file) (100 * k),
       compose ((srt_data.drop (100 * k)).take 100))

/-- utils.py lines 26-35, split_subtitle_file: dispatch on the file type; the
ASS branch raises NotImplementedError. -/
def split_subtitle_file (file_type : FileType) (subtitle_file tmp_dir : String)
    (content : String) : Except Err (List (String × String)) :=
  match file_type with
  | .SRT =>
    match split_srt_file subtitle_file tmp_dir content with
    | some files => .ok files
    | none => .error .parseError
  | .ASS => .error .notImplemented

/-- utils.py lines 72-77, merge_srt_files: open the target file in write mode
(truncating any existing file) and write srt.compose of the flat cue list. -/
def merge_srt_files (subtitle_files : List Cue)
    (fs : List (String × String)) (target_file : String) :
    List (String × String) :=
  writeFs fs target_file (compose subtitle_files)

/-! ## gemini.py -/

deriving instance DecidableEq for Except

/-- Result of one generate_content call: the returned cues or the raised
error, together with the file system and the remote-call counter after the
call. -/
structure GCResult where
  res : Except Err (List Cue)
  fs : List (String × String)
  calls : Nat
deriving DecidableEq, Repr

/-- gemini.py lines 18-48, generate_content: if the cache file tmp_file
exists, parse it and return the cues (no remote call). Otherwise make one
remote call, keep only the first fenced block of the response if the response
contains a fence, write the kept text to the cache file, then parse it.
A parse failure is the raised srt.SRTParseError. The remote service is a
function from the global call counter to the response text. -/
def generate_content (remote : Nat → String) (tmp_file : String)
    (fs : List (String × String)) (calls : Nat) : GCResult :=
  match lookupFs fs tmp_file with
  | some data =>
    match parse data with
    | some cues => ⟨.ok cues, fs, calls⟩
    | none => ⟨.error .parseError, fs, calls⟩
  | none =>
    let text := stripFence (remote calls)
    let fs2 := writeFs fs tmp_file text
    match parse text with
    | some cues => ⟨.ok cues, fs2, calls + 1⟩
    | none => ⟨.error .parseError, fs2, calls + 1⟩

/-- gemini.py lines 110-114: try generate_content; on SRTParseError print a
message and call generate_content once more; an error of the second call
propagates. -/
def translateBatch (remote : Nat → String) (tmp_file : String)
    (fs : List (String × String)) (calls : Nat) : GCResult :=
  let r := generate_content remote tmp_file fs calls
  match r.res with
  | .ok _ => r
  | .error _ => generate_content remote tmp_file r.fs r.calls

/-- gemini.py lines 104-105: the cache file path of a batch file fn is
fn.with_name(f-string of fn.stem, _zh., fn.suffix); fn.suffix keeps its dot,
so the name has a doubled dot: {stem}_zh..srt. -/
def cacheFileName (batchPath : String) : String :=
  dirPart batchPath ++ stem batchPath ++ "_zh." ++ pathSuffix batchPath

/-- State threaded through the per-batch loop of translate_subtitle:
file system, remote-call counter, uploaded and deleted payload handles
(recorded by batch file path), progress reports, and the accumulated
translated cues (translated_srt). -/
structure LoopState where
  fs : List (String × String)
  calls : Nat
  uploaded : List String
  deleted : List String
  progress : List (Nat × Nat)
  acc : List Cue
deriving DecidableEq, Repr

/-- gemini.py lines 99-118, the loop body per batch: upload the batch file,
translate with one retry, extend translated_srt, delete the remote handle,
report progress. When translation raises, the delete and the progress report
are skipped and the loop aborts with the error. -/
def runBatches (remote : Nat → String) (total : Nat) :
    List (Nat × String) → LoopState → LoopState × Option Err
  | [], st => (st, none)
  | (idx, name) :: rest, st =>
    let st1 := { st with uploaded := st.uploaded ++ [name] }
    let tmp := cacheFileName name
    let r := translateBatch remote tmp st1.fs st1.calls
    match r.res with
    | .error e => ({ st1 with fs := r.fs, calls := r.calls }, some e)
    | .ok srts =>
      runBatches remote total rest
        { st1 with
          fs := r.fs
          calls := r.calls
          acc := st1.acc ++ srts
          deleted := st1.deleted ++ [name]
          progress := st1.progress ++ [(idx, total)] }

/-- gemini.py lines 120-126: the output file path
target_dir / {input stem}_{target language}.{file type value lowercased}. -/
def outputPath (subtitle_file target_dir target_language : String)
    (ft : FileType) : String :=
  target_dir ++ "/" ++ stem subtitle_file ++ "_" ++ target_language ++ "." ++
    ft.value

/-- Outcome of a translate_subtitle run: the raised error if any, the final
state of the scratch file system, the observable side effects, the merged
output file (path and content) and the Python return value of the function
(always None: the source has no return statement). -/
structure RunOutcome where
  result : Option Err
  fs : List (String × String)
  calls : Nat
  uploaded : List String
  deleted : List String
  progress : List (Nat × Nat)
  output : Option (String × String)
  returned : Option String
deriving DecidableEq, Repr

/-- gemini.py lines 51-127, translate_subtitle: determine the file type,
split the input into batch files in the scratch directory, translate the
batches sequentially with caching, merge the translated cues into the output
file. The input file content and the initial scratch directory contents are
explicit, and the prompt and language names are carried as in the source. -/
def translate_subtitle (prompt subtitle_file target_dir from_language
    target_language tmp_dir : String) (inputContent : String)
    (remote : Nat → String) (fs0 : List (String × String)) : RunOutcome :=
  match get_file_type subtitle_file with
  | .error e =>
    ⟨some e, fs0, 0, [], [], [], none, none⟩
  | .ok ft =>
    match split_subtitle_file ft subtitle_file tmp_dir inputContent with
    | .error e => ⟨some e, fs0, 0, [], [], [], none, none⟩
    | .ok files =>
      let fs1 := files.foldl (fun fs f => writeFs fs f.1 f.2) fs0
      let names := files.map (fun f => f.1)
      let enumerated := names.enum.map fun p => (p.1 + 1, p.2)
      match runBatches remote names.length enumerated ⟨fs1, 0, [], [], [], []⟩ with
      | (st, some e) =>
        ⟨some e, st.fs, st.calls, st.uploaded, st.deleted, st.progress,
          none, none⟩
      | (st, none) =>
        let outPath := outputPath subtitle_file target_dir target_language ft
        ⟨none, merge_srt_files st.acc st.fs outPath, st.calls, st.uploaded,
          st.deleted, st.progress, some (outPath, compose st.acc), none⟩

/-! # Theorems

First the codec round-trip development, then the fence-extraction lemmas,
then the per-claim theorems. -/

theorem digitChar_toNat (d : Nat) (h : d < 10) : (digitChar d).toNat = 48 + d := by
  interval_cases d <;> decide

theorem isDigitChar_digitChar (d : Nat) (h : d < 10) :
    isDigitChar (digitChar d) = true := by
  simp only [isDigitChar, decide_eq_true_eq, digitChar_toNat d h]
  omega

theorem isDigitChar_ne_newline (c : Char) (h : isDigitChar c = true) :
    c ≠ '\n' := by
  intro heq
  subst heq
  simp [isDigitChar] at h

theorem mem_natCharsAux (fuel : Nat) :
    ∀ n c, c ∈ natCharsAux fuel n → ∃ d, d < 10 ∧ c = digitChar d := by
  induction fuel with
  | zero => intro n c hc; simp [natCharsAux] at hc
  | succ f ih =>
    intro n c hc
    simp only [natCharsAux] at hc
    split at hc
    · next h10 =>
      simp only [List.mem_singleton] at hc
      exact ⟨n, h10, hc⟩
    · next h10 =>
      rcases List.mem_append.mp hc with h | h
      · exact ih _ _ h
      · simp only [List.mem_singleton] at h
        exact ⟨n % 10, Nat.mod_lt _ (by omega), h⟩

theorem natCharsAux_ne_nil (fuel n : Nat) (h : 0 < fuel) :
    natCharsAux fuel n ≠ [] := by
  cases fuel with
  | zero => omega
  | succ f =>
    simp only [natCharsAux]
    split <;> simp

theorem natChars_ne_nil (n : Nat) : natChars n ≠ [] :=
  natCharsAux_ne_nil (n + 1) n (by omega)

theorem mem_natChars_digit (n : Nat) (c : Char) (h : c ∈ natChars n) :
    isDigitChar c = true := by
  obtain ⟨d, hd, rfl⟩ := mem_natCharsAux (n + 1) n c h
  exact isDigitChar_digitChar d hd

theorem readDigitsAux_natCharsAux (fuel : Nat) :
    ∀ n, n < fuel → ∀ acc rest,
      readDigitsAux (natCharsAux fuel n ++ rest) acc =
        readDigitsAux rest (acc * 10 ^ (natCharsAux fuel n).length + n) := by
  induction fuel with
  | zero => intro n hn; omega
  | succ f ih =>
    intro n hn acc rest
    by_cases h10 : n < 10
    · simp only [natCharsAux, if_pos h10, List.singleton_append,
        List.length_singleton, readDigitsAux, isDigitChar_digitChar n h10,
        if_pos, digitChar_toNat n h10]
      congr 1
      omega
    · have hdiv : n / 10 < f := by omega
      simp only [natCharsAux, if_neg h10, List.append_assoc,
        List.singleton_append, List.length_append, List.length_singleton]
      rw [ih (n / 10) hdiv acc (digitChar (n % 10) :: rest)]
      have hm : n % 10 < 10 := Nat.mod_lt _ (by omega)
      simp only [readDigitsAux, isDigitChar_digitChar _ hm, if_pos,
        digitChar_toNat _ hm]
      congr 1
      rw [pow_succ, ← mul_assoc]
      omega

theorem readDigitsAux_stop (rest : List Char) (v : Nat) (h : headNonDigit rest) :
    readDigitsAux rest v = (v, rest) := by
  cases rest with
  | nil => rfl
  | cons c cs =>
    have := h c rfl
    simp [readDigitsAux, this]

theorem readDigitsAux_zeros :
    ∀ k (l : List Char), readDigitsAux (List.replicate k '0' ++ l) 0 =
      readDigitsAux l 0 := by
  intro k
  induction k with
  | zero => intro l; rfl
  | succ j ih =>
    intro l
    simp only [List.replicate_succ, List.cons_append, readDigitsAux]
    norm_num
    exact ih l

theorem mem_padZeros_digit (w n : Nat) (c : Char) (h : c ∈ padZeros w n) :
    isDigitChar c = true := by
  rcases List.mem_append.mp h with h | h
  · rw [List.eq_of_mem_replicate h]
    decide
  · exact mem_natChars_digit n c h

theorem padZeros_ne_nil (w n : Nat) : padZeros w n ≠ [] := by
  intro h
  rcases List.append_eq_nil.mp h with ⟨-, h2⟩
  exact natChars_ne_nil n h2

theorem readDigitsAux_padZeros (w n : Nat) (rest : List Char)
    (h : headNonDigit rest) :
    readDigitsAux (padZeros w n ++ rest) 0 = (n, rest) := by
  unfold padZeros
  rw [List.append_assoc, readDigitsAux_zeros]
  have : n < n + 1 := by omega
  rw [show natChars n = natCharsAux (n + 1) n from rfl,
    readDigitsAux_natCharsAux (n + 1) n this 0 rest,
    readDigitsAux_stop rest _ h]
  simp

theorem readDigits_padZeros (w n : Nat) (rest : List Char)
    (h : headNonDigit rest) :
    readDigits (padZeros w n ++ rest) = some (n, rest) := by
  cases hpz : padZeros w n with
  | nil => exact absurd hpz (padZeros_ne_nil w n)
  | cons c cs =>
    have hc : isDigitChar c = true :=
      mem_padZeros_digit w n c (hpz ▸ List.mem_cons_self c cs)
    simp only [List.cons_append, readDigits, hc, if_pos]
    rw [← List.cons_append, ← hpz, readDigitsAux_padZeros w n rest h]

theorem readDigits_natChars (n : Nat) : readDigits (natChars n) = some (n, []) := by
  have h0 : headNonDigit [] := by intro c hc; simp at hc
  have := readDigits_padZeros 0 n [] h0
  simpa [padZeros] using this

theorem takeLine_append (A B : List Char) (h : '\n' ∉ A) :
    takeLine (A ++ '\n' :: B) = (A, some B) := by
  induction A with
  | nil => simp [takeLine]
  | cons c cs ih =>
    have hc : c ≠ '\n' := fun hc => h (hc ▸ List.mem_cons_self c cs)
    have hcs : '\n' ∉ cs := fun hm => h (List.mem_cons_of_mem c hm)
    simp [takeLine, hc, ih hcs]

theorem expectList_append (p r : List Char) : expectList p (p ++ r) = some r := by
  induction p with
  | nil => rfl
  | cons c cs ih => simp [expectList, ih]

theorem hasNlNl_cons_false (c : Char) (cs : List Char)
    (h : hasNlNl (c :: cs) = false) :
    ¬(c = '\n' ∧ cs.head? = some '\n') ∧ hasNlNl cs = false := by
  simp only [hasNlNl] at h
  split at h
  · exact absurd h (by simp)
  · next hns => exact ⟨hns, h⟩

theorem breakBlank_cons (c : Char) (cs : List Char) :
    breakBlank (c :: cs) =
      if c = '\n' ∧ cs.head? = some '\n' then ([], some cs.tail)
      else ((c :: (breakBlank cs).1, (breakBlank cs).2)) := rfl

theorem breakBlank_append (content r : List Char)
    (h1 : hasNlNl content = false) (h2 : content.getLast? ≠ some '\n') :
    breakBlank (content ++ '\n' :: '\n' :: r) = (content, some r) := by
  induction content with
  | nil => simp [breakBlank]
  | cons c cs ih =>
    obtain ⟨hnc, hcs⟩ := hasNlNl_cons_false c cs h1
    cases cs with
    | nil =>
      have hc : c ≠ '\n' := by
        intro hc
        exact h2 (by simp [hc])
      simp [breakBlank, hc]
    | cons c2 cs2 =>
      have h2' : (c2 :: cs2).getLast? ≠ some '\n' := by
        rwa [List.getLast?_cons_cons] at h2
      have hcond : ¬(c = '\n' ∧ ((c2 :: cs2) ++ '\n' :: '\n' :: r).head? = some '\n') := by
        intro ⟨hcnl, hh⟩
        simp only [List.cons_append, List.head?_cons, Option.some.injEq] at hh
        exact hnc ⟨hcnl, by simp [hh]⟩
      rw [List.cons_append, breakBlank_cons, if_neg hcond, ih hcs h2']

theorem headNonDigit_cons (c : Char) (cs : List Char)
    (h : isDigitChar c = false) : headNonDigit (c :: cs) := by
  intro d hd
  simp only [List.head?_cons, Option.some.injEq] at hd
  rwa [← hd]

theorem headNonDigit_nil : headNonDigit [] := by
  intro c hc
  simp at hc

theorem parseTimestamp_compose (ms : Nat) (rest : List Char)
    (h : headNonDigit rest) :
    parseTimestamp (srt_timestamp ms ++ rest) = some (ms, rest) := by
  have hcolon : isDigitChar ':' = false := by decide
  have hcomma : isDigitChar ',' = false := by decide
  unfold srt_timestamp
  simp only [List.append_assoc, List.cons_append]
  unfold parseTimestamp
  rw [readDigits_padZeros _ _ _ (headNonDigit_cons _ _ hcolon)]
  simp only [if_pos rfl]
  rw [readDigits_padZeros _ _ _ (headNonDigit_cons _ _ hcolon)]
  simp only [if_pos rfl]
  rw [readDigits_padZeros _ _ _ (headNonDigit_cons _ _ hcomma)]
  simp only [if_pos rfl]
  rw [readDigits_padZeros _ _ _ h]
  have hms : ms / 3600000 * 3600000 + ms / 60000 % 60 * 60000 +
      ms / 1000 % 60 * 1000 + ms % 1000 = ms := by omega
  simp [hms]

theorem parseTimestamp_compose_nil (ms : Nat) :
    parseTimestamp (srt_timestamp ms) = some (ms, []) := by
  have := parseTimestamp_compose ms [] headNonDigit_nil
  simpa using this

theorem mem_srt_timestamp_ne_newline (ms : Nat) (c : Char)
    (h : c ∈ srt_timestamp ms) : c ≠ '\n' := by
  simp only [srt_timestamp, List.mem_append, List.mem_cons] at h
  rcases h with h | h | h
  · exact isDigitChar_ne_newline c (mem_padZeros_digit _ _ c h)
  · subst h; decide
  · rcases h with h | h
    · exact isDigitChar_ne_newline c (mem_padZeros_digit _ _ c h)
    · rcases h with h | h
      · subst h; decide
      · rcases h with h | h
        · exact isDigitChar_ne_newline c (mem_padZeros_digit _ _ c h)
        · rcases h with h | h
          · subst h; decide
          · exact isDigitChar_ne_newline c (mem_padZeros_digit _ _ c h)

theorem newline_not_mem_timingLine (cue : Cue) : '\n' ∉ timingLine cue := by
  intro h
  simp only [timingLine, List.mem_append] at h
  rcases h with h | h | h
  · exact mem_srt_timestamp_ne_newline _ _ h rfl
  · simp [arrowChars] at h
  · exact mem_srt_timestamp_ne_newline _ _ h rfl

theorem parseTsLine_compose (cue : Cue) :
    parseTsLine (timingLine cue) = some (cue.start, cue.stop) := by
  have hsp : isDigitChar ' ' = false := by decide
  have harrow : headNonDigit (arrowChars ++ srt_timestamp cue.stop) := by
    simp only [arrowChars, List.cons_append]
    exact headNonDigit_cons _ _ hsp
  simp only [parseTsLine, timingLine, parseTimestamp_compose _ _ harrow,
    expectList_append, parseTimestamp_compose_nil]

theorem parseBlock_compose (cue : Cue) (r : List Char) (h : ContentOk cue) :
    parseBlock (composeBlock cue ++ r) = some (cue, some r) := by
  obtain ⟨h1, h2⟩ := h
  have hnl1 : '\n' ∉ natChars cue.index := fun hm =>
    isDigitChar_ne_newline _ (mem_natChars_digit _ _ hm) rfl
  simp only [composeBlock, List.append_assoc, List.cons_append, List.nil_append]
  simp only [parseBlock, takeLine_append _ _ hnl1, readDigits_natChars,
    takeLine_append _ _ (newline_not_mem_timingLine cue), parseTsLine_compose,
    breakBlank_append _ _ h1 h2]

theorem parseCuesAux_nil (fuel : Nat) : parseCuesAux fuel [] = some [] := by
  cases fuel <;> rfl

theorem composeBlock_length_pos (c : Cue) : 0 < (composeBlock c).length := by
  simp only [composeBlock, List.length_append, List.length_cons]
  omega

theorem parseCuesAux_compose (cues : List Cue) (h : ∀ c ∈ cues, ContentOk c) :
    ∀ fuel, (composeChars cues).length ≤ fuel →
      parseCuesAux fuel (composeChars cues) = some cues := by
  induction cues with
  | nil =>
    intro fuel _
    simp only [composeChars, List.map_nil, List.flatten_nil, parseCuesAux_nil]
  | cons c cs ih =>
    intro fuel hfuel
    have hc : ContentOk c := h c (List.mem_cons_self c cs)
    have hcs : ∀ x ∈ cs, ContentOk x := fun x hx => h x (List.mem_cons_of_mem c hx)
    have hsplit : composeChars (c :: cs) = composeBlock c ++ composeChars cs := by
      simp [composeChars]
    rw [hsplit] at hfuel ⊢
    have hbpos := composeBlock_length_pos c
    have hlen : (composeBlock c ++ composeChars cs).length =
        (composeBlock c).length + (composeChars cs).length := by
      simp
    cases fuel with
    | zero => omega
    | succ f =>
      obtain ⟨y, ys, hys⟩ : ∃ y ys, composeBlock c ++ composeChars cs = y :: ys := by
        cases hcb : composeBlock c with
        | nil => rw [hcb] at hbpos; simp at hbpos
        | cons d ds => exact ⟨d, ds ++ composeChars cs, by simp [hcb]⟩
      rw [hys]
      have hblock : parseBlock (y :: ys) = some (c, some (composeChars cs)) := by
        rw [← hys]
        exact parseBlock_compose c (composeChars cs) hc
      have hrec : parseCuesAux f (composeChars cs) = some cs :=
        ih hcs f (by omega)
      simp only [parseCuesAux, hblock, hrec]

/-- Codec round trip at character level lifted to strings. -/
theorem parse_compose (cues : List Cue) (h : ∀ c ∈ cues, ContentOk c) :
    parse (compose cues) = some cues := by
  have : (compose cues).data = composeChars cues := rfl
  unfold parse
  rw [this]
  exact parseCuesAux_compose cues h _ (by omega)

/-! ## Fence extraction lemmas -/

theorem breakFence_cons (c : Char) (cs : List Char) :
    breakFence (c :: cs) =
      if startsTicks (c :: cs) then some ([], cs.drop 2)
      else
        match breakFence cs with
        | some (a, b) => some (c :: a, b)
        | none => none := rfl

theorem breakFence_eq_none (l : List Char) (h : hasFenceB l = false) :
    breakFence l = none := by
  induction l with
  | nil => rfl
  | cons c cs ih =>
    simp only [hasFenceB, Bool.or_eq_false_iff] at h
    simp [breakFence_cons, h.1, ih h.2]

theorem startsTicks_take (l1 l2 : List Char) (h : l1.take 3 = l2.take 3) :
    startsTicks l1 = startsTicks l2 := by
  unfold startsTicks
  rw [h]

theorem take_append_congr :
    ∀ (a : List Char) (n : Nat) (X Y : List Char), X.take n = Y.take n →
      (a ++ X).take n = (a ++ Y).take n := by
  intro a
  induction a with
  | nil =>
    intro n X Y h
    simpa using h
  | cons c a' ih =>
    intro n X Y h
    cases n with
    | zero => simp
    | succ m =>
      have hm : X.take m = Y.take m := by
        have := congrArg (List.take m) h
        rwa [List.take_take, List.take_take, Nat.min_eq_left (by omega)] at this
      simp only [List.cons_append, List.take_succ_cons]
      rw [ih m X Y hm]

theorem breakFence_append (a r : List Char)
    (h : hasFenceB (a ++ [tick, tick]) = false) :
    breakFence (a ++ ticks ++ r) = some (a, r) := by
  induction a with
  | nil => simp [ticks, breakFence_cons, startsTicks]
  | cons c a' ih =>
    simp only [List.cons_append, hasFenceB, Bool.or_eq_false_iff] at h
    have htake : (c :: (a' ++ (ticks ++ r))).take 3 =
        (c :: (a' ++ [tick, tick])).take 3 := by
      rw [List.take_succ_cons, List.take_succ_cons]
      congr 1
      exact take_append_congr a' 2 (ticks ++ r) [tick, tick] (by simp [ticks])
    have hst : startsTicks (c :: (a' ++ (ticks ++ r))) = false := by
      rw [startsTicks_take _ _ htake]
      exact h.1
    have ih' := ih h.2
    rw [List.append_assoc] at ih'
    simp only [List.cons_append, List.append_assoc]
    rw [breakFence_cons, if_neg (by simp [hst]), ih']

/-! ## Chunking lemma -/

theorem flatten_chunks (l : List Cue) :
    ∀ n : Nat,
      ((List.range n).map fun k => (l.drop (100 * k)).take 100).flatten =
        l.take (100 * n) := by
  intro n
  induction n with
  | zero => simp
  | succ m ih =>
    rw [List.range_succ, List.map_append, List.flatten_append, ih]
    simp only [List.map_cons, List.map_nil, List.flatten_cons, List.flatten_nil,
      List.append_nil]
    rw [show 100 * (m + 1) = 100 * m + 100 by ring, List.take_add]

/-! ## Claim theorems -/

/-- Claim C3, counterexample: the round-trip law as stated fails for a
well-formed sequence per the claim (1-based contiguous indices, sorted by
start) whose cue text contains a blank line: the SRT block format uses the
blank line as the block terminator, so the text cannot survive the trip. -/
theorem C3_roundtrip_counterexample :
    (∀ i, (h : i < ([⟨1, 0, 1000, "a\n\nb"⟩] : List Cue).length) →
        (([⟨1, 0, 1000, "a\n\nb"⟩] : List Cue).get ⟨i, h⟩).index = i + 1) ∧
    List.Chain' (fun a b => a.start ≤ b.start)
      ([⟨1, 0, 1000, "a\n\nb"⟩] : List Cue) ∧
    parse (compose [⟨1, 0, 1000, "a\n\nb"⟩]) ≠
      some [⟨1, 0, 1000, "a\n\nb"⟩] := by
  refine ⟨by decide, List.chain'_singleton _, by decide⟩

/-- Claim C3 (amended): for every well-formed cue sequence (1-based
contiguous indices, sorted consistently with start times) whose cue texts are
representable in the SRT block format (no embedded blank line, no trailing
newline), parsing the serialization returns the same sequence with index,
timestamps and text preserved exactly. -/
theorem C3_roundtrip_amended (cues : List Cue)
    (hidx : ∀ i, (h : i < cues.length) → (cues.get ⟨i, h⟩).index = i + 1)
    (hsort : List.Chain' (fun a b => a.start ≤ b.start) cues)
    (hok : ∀ c ∈ cues, ContentOk c) :
    parse (compose cues) = some cues :=
  parse_compose cues hok

/-- Claim C3 amended witness at a concrete two-cue sequence. -/
theorem C3_roundtrip_amended_witness :
    parse (compose [⟨1, 0, 1000, "hi"⟩, ⟨2, 1000, 2000, "yo"⟩]) =
      some [⟨1, 0, 1000, "hi"⟩, ⟨2, 1000, 2000, "yo"⟩] :=
  C3_roundtrip_amended [⟨1, 0, 1000, "hi"⟩, ⟨2, 1000, 2000, "yo"⟩]
    (by decide) (by simp [List.chain'_cons]) (by decide)

/-- Claim C2: for a track of N parsed cues, split_srt_file produces
ceil(N/100) batch files; batch k is exactly the serialization of the cues at
positions 100k..min(100(k+1),N) of the track, in original order with indices
unmodified; the batches concatenate back to the track; the last batch has
N mod 100 (or 100) cues. -/
theorem C2_split_partition (subtitle_file tmp_dir content : String)
    (track : List Cue) (hp : parse content = some track) :
    ∃ files, split_srt_file subtitle_file tmp_dir content = some files ∧
      files.length = (track.length + 99) / 100 ∧
      (∀ k, (hk : k < files.length) → files.get ⟨k, hk⟩ =
        (batchFileName tmp_dir (stem subtitle_file) (100 * k),
         compose ((track.drop (100 * k)).take 100))) ∧
      ((List.range files.length).map
          fun k => (track.drop (100 * k)).take 100).flatten = track ∧
      (0 < track.length →
        ((track.drop (100 * (files.length - 1))).take 100).length =
          if track.length % 100 = 0 then 100 else track.length % 100) := by
  refine ⟨(List.range ((track.length + 99) / 100)).map fun k =>
      (batchFileName tmp_dir (stem subtitle_file) (100 * k),
       compose ((track.drop (100 * k)).take 100)), ?_, ?_, ?_, ?_, ?_⟩
  · simp [split_srt_file, hp]
  · simp
  · intro k hk
    simp [List.get_eq_getElem, List.getElem_map, List.getElem_range]
  · have hlen : ((List.range ((track.length + 99) / 100)).map fun k =>
        (batchFileName tmp_dir (stem subtitle_file) (100 * k),
         compose ((track.drop (100 * k)).take 100))).length =
        (track.length + 99) / 100 := by simp
    rw [hlen, flatten_chunks]
    exact List.take_of_length_le (by omega)
  · intro hpos
    simp only [List.length_map, List.length_range, List.length_take,
      List.length_drop]
    split <;> omega

/-- Claim C2 witness at a concrete one-cue track. -/
theorem C2_split_partition_witness :
    ∃ files, split_srt_file "a.srt" "tmp"
        "1\n00:00:00,000 --> 00:00:01,000\nhi\n\n" = some files ∧
      files.length = (([⟨1, 0, 1000, "hi"⟩] : List Cue).length + 99) / 100 ∧
      (∀ k, (hk : k < files.length) → files.get ⟨k, hk⟩ =
        (batchFileName "tmp" (stem "a.srt") (100 * k),
         compose ((([⟨1, 0, 1000, "hi"⟩] : List Cue).drop (100 * k)).take 100))) ∧
      ((List.range files.length).map
          fun k => (([⟨1, 0, 1000, "hi"⟩] : List Cue).drop (100 * k)).take 100).flatten =
        [⟨1, 0, 1000, "hi"⟩] ∧
      (0 < ([⟨1, 0, 1000, "hi"⟩] : List Cue).length →
        ((([⟨1, 0, 1000, "hi"⟩] : List Cue).drop
            (100 * (files.length - 1))).take 100).length =
          if ([⟨1, 0, 1000, "hi"⟩] : List Cue).length % 100 = 0 then 100
          else ([⟨1, 0, 1000, "hi"⟩] : List Cue).length % 100) :=
  C2_split_partition "a.srt" "tmp" "1\n00:00:00,000 --> 00:00:01,000\nhi\n\n"
    [⟨1, 0, 1000, "hi"⟩] (by decide)

/-- Claim C4: when the cache file exists and parses, generate_content makes
zero remote calls (the call counter and file system are unchanged) and
returns exactly the parsed cache content; invoking it again on the resulting
state returns the identical result, still with no remote call. -/
theorem C4_cache_hit (remote : Nat → String) (tmp_file : String)
    (fs : List (String × String)) (calls : Nat) (data : String)
    (cues : List Cue) (hlook : lookupFs fs tmp_file = some data)
    (hparse : parse data = some cues) :
    generate_content remote tmp_file fs calls = ⟨.ok cues, fs, calls⟩ ∧
    generate_content remote tmp_file
        (generate_content remote tmp_file fs calls).fs
        (generate_content remote tmp_file fs calls).calls =
      generate_content remote tmp_file fs calls := by
  have h1 : generate_content remote tmp_file fs calls = ⟨.ok cues, fs, calls⟩ := by
    simp [generate_content, hlook, hparse]
  exact ⟨h1, by simp [h1]⟩

/-- Claim C4 witness at a concrete cached batch. -/
theorem C4_cache_hit_witness :
    generate_content (fun _ => "x") "t"
        [("t", "1\n00:00:00,000 --> 00:00:01,000\nhi\n\n")] 5 =
      ⟨.ok [⟨1, 0, 1000, "hi"⟩],
        [("t", "1\n00:00:00,000 --> 00:00:01,000\nhi\n\n")], 5⟩ ∧
    generate_content (fun _ => "x") "t"
        (generate_content (fun _ => "x") "t"
          [("t", "1\n00:00:00,000 --> 00:00:01,000\nhi\n\n")] 5).fs
        (generate_content (fun _ => "x") "t"
          [("t", "1\n00:00:00,000 --> 00:00:01,000\nhi\n\n")] 5).calls =
      generate_content (fun _ => "x") "t"
        [("t", "1\n00:00:00,000 --> 00:00:01,000\nhi\n\n")] 5 :=
  C4_cache_hit (fun _ => "x") "t"
    [("t", "1\n00:00:00,000 --> 00:00:01,000\nhi\n\n")] 5
    "1\n00:00:00,000 --> 00:00:01,000\nhi\n\n" [⟨1, 0, 1000, "hi"⟩]
    (by decide) (by decide)

/-- Claim C5: merging an ordered sequence of translated cue sequences writes
to the target path (overwriting whatever the file system held there) the
serialization of the flat concatenation in the given order, with no
renumbering or re-sorting: parsing the written content returns exactly the
concatenation, so cues appear in the original numeric index order. -/
theorem C5_merge_concat (seqs : List (List Cue)) (fs : List (String × String))
    (target : String) (hok : ∀ c ∈ seqs.flatten, ContentOk c) :
    lookupFs (merge_srt_files seqs.flatten fs target) target =
      some (compose seqs.flatten) ∧
    parse (compose seqs.flatten) = some seqs.flatten := by
  refine ⟨?_, parse_compose _ hok⟩
  simp [merge_srt_files, writeFs, lookupFs]

/-- Claim C5 witness: three singleton batches merged in batch order over a
file system already holding an old file at the target path. -/
theorem C5_merge_concat_witness :
    lookupFs (merge_srt_files
        ([[⟨1, 0, 1000, "a"⟩], [⟨2, 1000, 2000, "b"⟩],
          [⟨3, 2000, 3000, "c"⟩]] : List (List Cue)).flatten
        [("out/x.srt", "old")] "out/x.srt") "out/x.srt" =
      some (compose ([[⟨1, 0, 1000, "a"⟩], [⟨2, 1000, 2000, "b"⟩],
        [⟨3, 2000, 3000, "c"⟩]] : List (List Cue)).flatten) ∧
    parse (compose ([[⟨1, 0, 1000, "a"⟩], [⟨2, 1000, 2000, "b"⟩],
        [⟨3, 2000, 3000, "c"⟩]] : List (List Cue)).flatten) =
      some ([[⟨1, 0, 1000, "a"⟩], [⟨2, 1000, 2000, "b"⟩],
        [⟨3, 2000, 3000, "c"⟩]] : List (List Cue)).flatten :=
  C5_merge_concat [[⟨1, 0, 1000, "a"⟩], [⟨2, 1000, 2000, "b"⟩],
    [⟨3, 2000, 3000, "c"⟩]] [("out/x.srt", "old")] "out/x.srt" (by decide)

/-- Claim C9: a response embedding a fenced block keeps exactly the content
between the first pair of fences (wrapper text before and after is
discarded); a response with no fence is kept whole; and on a cache miss the
kept text is persisted verbatim to the cache file whatever the subsequent
parse outcome is. -/
theorem C9_fence_extraction (text : String) (a b c : List Char)
    (remote : Nat → String) (tmp_file : String) (fs : List (String × String))
    (calls : Nat) :
    (text.data = a ++ ticks ++ b ++ ticks ++ c →
      hasFenceB (a ++ [tick, tick]) = false →
      hasFenceB (b ++ [tick, tick]) = false →
      stripFence text = String.mk b) ∧
    (hasFenceB text.data = false → stripFence text = text) ∧
    (lookupFs fs tmp_file = none →
      (generate_content remote tmp_file fs calls).fs =
        writeFs fs tmp_file (stripFence (remote calls))) := by
  refine ⟨?_, ?_, ?_⟩
  · intro hdata h1 h2
    have e1 : text.data = a ++ ticks ++ (b ++ ticks ++ c) := by
      rw [hdata]
      simp [List.append_assoc]
    simp only [stripFence, e1, breakFence_append a _ h1,
      breakFence_append b c h2]
  · intro h
    simp only [stripFence, breakFence_eq_none _ h]
  · intro hlook
    simp only [generate_content, hlook]
    split <;> rfl

/-- Claim C9 witness: a fenced response, a fence-free response, and a cache
miss persisting the extracted text. -/
theorem C9_fence_extraction_witness :
    stripFence "x```y```z" = "y" ∧
    stripFence "nofence" = "nofence" ∧
    (generate_content (fun _ => "r") "t" [] 0).fs =
      writeFs [] "t" (stripFence "r") := by
  refine ⟨?_, ?_, ?_⟩
  · exact (C9_fence_extraction "x```y```z" "x".data "y".data "z".data
      (fun _ => "r") "t" [] 0).1 (by decide) (by decide) (by decide)
  · exact (C9_fence_extraction "nofence" [] [] [] (fun _ => "r") "t" [] 0).2.1
      (by decide)
  · exact (C9_fence_extraction "r" [] [] [] (fun _ => "r") "t" [] 0).2.2 rfl

/-- Claim C1, evaluation at the failing input: with no cache file and a
remote service whose responses are never parsable, the batch translation of
gemini.py lines 110-114 raises the parse error after exactly ONE remote call,
not two: the first call wrote the unparsable text to the cache file before
validating it, so the retry takes the cache-hit branch, re-parses the same
text and raises without a second remote call. -/
theorem C1_retry_single_call :
    translateBatch (fun _ => "not an srt") "t" [] 0 =
      ⟨.error .parseError, [("t", "not an srt")], 1⟩ := by
  decide

/-! ## Orchestrator lemmas -/

theorem ass_not_srt (s : String) (h : endswith s ".ass" = true) :
    endswith s ".srt" = false := by
  unfold endswith at h ⊢
  have hass : (".ass" : String).data.reverse = ['s', 's', 'a', '.'] := by decide
  have hsrt : (".srt" : String).data.reverse = ['t', 'r', 's', '.'] := by decide
  rw [hass] at h
  rw [hsrt]
  cases hs : s.data.reverse with
  | nil => rw [hs] at h; simp [isPrefixL] at h
  | cons c0 rest =>
    rw [hs] at h
    simp only [isPrefixL, Bool.and_eq_true, decide_eq_true_eq] at h
    obtain ⟨hc0, -⟩ := h
    subst hc0
    simp [isPrefixL]

theorem runBatches_uploads_deleted (remote : Nat → String) (total : Nat) :
    ∀ (items : List (Nat × String)) (st : LoopState),
      st.deleted = st.uploaded →
      ∀ st' err, runBatches remote total items st = (st', err) →
        (err = none → st'.deleted = st'.uploaded) ∧
        (err ≠ none → ∃ f, st'.uploaded = st'.deleted ++ [f]) := by
  intro items
  induction items with
  | nil =>
    intro st hinv st' err h
    simp only [runBatches] at h
    injection h with h1 h2
    subst h1
    subst h2
    exact ⟨fun _ => hinv, fun hne => absurd rfl hne⟩
  | cons item rest ih =>
    obtain ⟨idx, name⟩ := item
    intro st hinv st' err h
    simp only [runBatches] at h
    split at h
    · injection h with h1 h2
      subst h1
      subst h2
      refine ⟨fun hh => by simp at hh, fun _ => ⟨name, ?_⟩⟩
      simp [hinv]
    · exact ih _ (by simp [hinv]) st' err h

/-- Every run of translate_subtitle falls in one of three cases: an error
before the batch loop with no side effects, an error inside the loop leaving
the failing batch uploaded and undeleted, or success with the merged output
written and every uploaded handle deleted. -/
theorem translate_subtitle_cases (prompt subtitle_file target_dir
    from_language target_language tmp_dir inputContent : String)
    (remote : Nat → String) (fs0 : List (String × String)) :
    (∃ e, translate_subtitle prompt subtitle_file target_dir from_language
        target_language tmp_dir inputContent remote fs0 =
        ⟨some e, fs0, 0, [], [], [], none, none⟩) ∨
    (∃ st : LoopState, ∃ e : Err, ∃ f : String,
      translate_subtitle prompt subtitle_file target_dir from_language
        target_language tmp_dir inputContent remote fs0 =
        ⟨some e, st.fs, st.calls, st.uploaded, st.deleted, st.progress,
          none, none⟩ ∧
      st.uploaded = st.deleted ++ [f]) ∨
    (∃ st : LoopState,
      translate_subtitle prompt subtitle_file target_dir from_language
        target_language tmp_dir inputContent remote fs0 =
        ⟨none, merge_srt_files st.acc st.fs
            (outputPath subtitle_file target_dir target_language .SRT),
          st.calls, st.uploaded, st.deleted, st.progress,
          some (outputPath subtitle_file target_dir target_language .SRT,
            compose st.acc), none⟩ ∧
      st.deleted = st.uploaded) := by
  cases hft : get_file_type subtitle_file with
  | error e =>
    left
    exact ⟨e, by simp [translate_subtitle, hft]⟩
  | ok ft =>
    cases ft with
    | ASS =>
      left
      exact ⟨.notImplemented, by simp [translate_subtitle, hft, split_subtitle_file]⟩
    | SRT =>
      cases hsp : split_srt_file subtitle_file tmp_dir inputContent with
      | none =>
        left
        exact ⟨.parseError, by simp [translate_subtitle, hft, split_subtitle_file, hsp]⟩
      | some files =>
        have hmain : translate_subtitle prompt subtitle_file target_dir
            from_language target_language tmp_dir inputContent remote fs0 =
            match runBatches remote (files.map (fun f => f.1)).length
                ((files.map (fun f => f.1)).enum.map fun p => (p.1 + 1, p.2))
                ⟨files.foldl (fun fs f => writeFs fs f.1 f.2) fs0,
                  0, [], [], [], []⟩ with
            | (st, some e) =>
              ⟨some e, st.fs, st.calls, st.uploaded, st.deleted, st.progress,
                none, none⟩
            | (st, none) =>
              ⟨none, merge_srt_files st.acc st.fs
                  (outputPath subtitle_file target_dir target_language .SRT),
                st.calls, st.uploaded, st.deleted, st.progress,
                some (outputPath subtitle_file target_dir target_language .SRT,
                  compose st.acc), none⟩ := by
          simp only [translate_subtitle, hft, split_subtitle_file, hsp]
        split at hmain
        · next st e heq =>
          right; left
          have hud := runBatches_uploads_deleted remote _ _ _ rfl st (some e) heq
          obtain ⟨f, hf⟩ := hud.2 (by simp)
          exact ⟨st, e, f, hmain, hf⟩
        · next st heq =>
          right; right
          have hud := runBatches_uploads_deleted remote _ _ _ rfl st none heq
          exact ⟨st, hmain, hud.1 rfl⟩

/-- Claim C8: a file whose name ends in .ass fails with NotImplementedError
before any remote call (zero calls, zero uploads), and a file whose extension
is neither .srt nor .ass fails immediately with the unsupported-format
ValueError, also before any remote call; both are distinct from the parse
error. -/
theorem C8_unsupported (prompt subtitle_file target_dir from_language
    target_language tmp_dir inputContent : String) (remote : Nat → String)
    (fs0 : List (String × String)) :
    (endswith subtitle_file ".ass" = true →
      translate_subtitle prompt subtitle_file target_dir from_language
        target_language tmp_dir inputContent remote fs0 =
        ⟨some .notImplemented, fs0, 0, [], [], [], none, none⟩) ∧
    (endswith subtitle_file ".srt" = false →
      endswith subtitle_file ".ass" = false →
      translate_subtitle prompt subtitle_file target_dir from_language
        target_language tmp_dir inputContent remote fs0 =
        ⟨some (.unsupported subtitle_file), fs0, 0, [], [], [], none, none⟩) := by
  constructor
  · intro hass
    have hsrt : endswith subtitle_file ".srt" = false := ass_not_srt _ hass
    simp [translate_subtitle, get_file_type, hsrt, hass, split_subtitle_file]
  · intro h1 h2
    simp [translate_subtitle, get_file_type, h1, h2]

/-- Claim C8 witness at a .ass file and at a .txt file. -/
theorem C8_unsupported_witness :
    translate_subtitle "p" "x.ass" "out" "en" "zh" "tmp" "" (fun _ => "") [] =
      ⟨some .notImplemented, [], 0, [], [], [], none, none⟩ ∧
    translate_subtitle "p" "x.txt" "out" "en" "zh" "tmp" "" (fun _ => "") [] =
      ⟨some (.unsupported "x.txt"), [], 0, [], [], [], none, none⟩ :=
  ⟨(C8_unsupported "p" "x.ass" "out" "en" "zh" "tmp" "" (fun _ => "") []).1
      (by decide),
    (C8_unsupported "p" "x.txt" "out" "en" "zh" "tmp" "" (fun _ => "") []).2
      (by decide) (by decide)⟩

/-- Claim C10: translating an input file that parses to zero cues performs
zero remote calls, uploads nothing, never invokes the progress callback, and
still succeeds, writing the empty serialization to the computed output path. -/
theorem C10_empty_input (prompt subtitle_file target_dir from_language
    target_language tmp_dir content : String) (remote : Nat → String)
    (fs0 : List (String × String))
    (hsrt : endswith subtitle_file ".srt" = true)
    (hempty : parse content = some []) :
    translate_subtitle prompt subtitle_file target_dir from_language
      target_language tmp_dir content remote fs0 =
      ⟨none,
        (outputPath subtitle_file target_dir target_language .SRT, "") :: fs0,
        0, [], [], [],
        some (outputPath subtitle_file target_dir target_language .SRT, ""),
        none⟩ := by
  have hsplit : split_srt_file subtitle_file tmp_dir content = some [] := by
    simp [split_srt_file, hempty]
  have hc : compose ([] : List Cue) = "" := rfl
  simp [translate_subtitle, get_file_type, hsrt, split_subtitle_file, hsplit,
    runBatches, merge_srt_files, writeFs, hc]

/-- Claim C10 witness at an empty input file. -/
theorem C10_empty_input_witness :
    translate_subtitle "p" "a.srt" "out" "en" "zh" "tmp" "" (fun _ => "")
      [("k", "v")] =
      ⟨none, (outputPath "a.srt" "out" "zh" .SRT, "") :: [("k", "v")],
        0, [], [], [],
        some (outputPath "a.srt" "out" "zh" .SRT, ""), none⟩ :=
  C10_empty_input "p" "a.srt" "out" "en" "zh" "tmp" "" (fun _ => "")
    [("k", "v")] (by decide) (by decide)

/-- Claim C6, counterexample: a successful run writes the merged output to
the documented path in the output directory, but the function returns None
(the source has no return statement), not the output path. -/
theorem C6_returns_none_counterexample :
    (translate_subtitle "p" "a.srt" "out" "en" "zh" "tmp" "" (fun _ => "")
        []).result = none ∧
    (translate_subtitle "p" "a.srt" "out" "en" "zh" "tmp" "" (fun _ => "")
        []).output = some ("out/a_zh.srt", "") ∧
    (translate_subtitle "p" "a.srt" "out" "en" "zh" "tmp" "" (fun _ => "")
        []).returned = none := by
  decide

/-- Claim C6 (amended): every successful run writes the merged output to a
file in the output directory named from the input stem, the target language
and the extension; the function returns None rather than that path. -/
theorem C6_output_path_amended (prompt subtitle_file target_dir from_language
    target_language tmp_dir inputContent : String) (remote : Nat → String)
    (fs0 : List (String × String))
    (hok : (translate_subtitle prompt subtitle_file target_dir from_language
      target_language tmp_dir inputContent remote fs0).result = none) :
    (∃ contentOut,
      (translate_subtitle prompt subtitle_file target_dir from_language
        target_language tmp_dir inputContent remote fs0).output =
        some (outputPath subtitle_file target_dir target_language .SRT,
          contentOut)) ∧
    (translate_subtitle prompt subtitle_file target_dir from_language
      target_language tmp_dir inputContent remote fs0).returned = none := by
  rcases translate_subtitle_cases prompt subtitle_file target_dir
      from_language target_language tmp_dir inputContent remote fs0 with
    ⟨e, heq⟩ | ⟨st, e, f, heq, -⟩ | ⟨st, heq, -⟩
  · rw [heq] at hok; simp at hok
  · rw [heq] at hok; simp at hok
  · rw [heq]
    exact ⟨⟨compose st.acc, rfl⟩, rfl⟩

/-- Claim C6 amended witness at a concrete successful run. -/
theorem C6_output_path_amended_witness :
    (∃ contentOut,
      (translate_subtitle "p" "a.srt" "out" "en" "zh" "tmp" "" (fun _ => "")
        []).output = some (outputPath "a.srt" "out" "zh" .SRT, contentOut)) ∧
    (translate_subtitle "p" "a.srt" "out" "en" "zh" "tmp" "" (fun _ => "")
      []).returned = none :=
  C6_output_path_amended "p" "a.srt" "out" "en" "zh" "tmp" "" (fun _ => "") []
    (by decide)

/-- Claim C7, counterexample: when a batch ultimately raises (unparsable
remote text, retry exhausted), the uploaded payload handle is NOT deleted -
the delete is only reached after a successful translation, so the handle
leaks on failure, contradicting deletion on success and failure alike. -/
theorem C7_leak_counterexample :
    (translate_subtitle "p" "a.srt" "out" "en" "zh" "tmp"
        "1\n00:00:00,000 --> 00:00:01,000\nhi\n\n" (fun _ => "bad")
        []).result = some .parseError ∧
    (translate_subtitle "p" "a.srt" "out" "en" "zh" "tmp"
        "1\n00:00:00,000 --> 00:00:01,000\nhi\n\n" (fun _ => "bad")
        []).uploaded = ["tmp/a_00000001.srt"] ∧
    (translate_subtitle "p" "a.srt" "out" "en" "zh" "tmp"
        "1\n00:00:00,000 --> 00:00:01,000\nhi\n\n" (fun _ => "bad")
        []).deleted = [] := by
  decide

/-- Claim C7 (amended): each batch payload is uploaded before its
translation; on success the handle is deleted right after (so a successful
run deletes every uploaded handle), but when a batch ultimately raises, its
handle is left undeleted: the uploads then exceed the deletes by exactly the
failing batch. -/
theorem C7_delete_amended (prompt subtitle_file target_dir from_language
    target_language tmp_dir inputContent : String) (remote : Nat → String)
    (fs0 : List (String × String)) :
    ((translate_subtitle prompt subtitle_file target_dir from_language
        target_language tmp_dir inputContent remote fs0).result = none →
      (translate_subtitle prompt subtitle_file target_dir from_language
        target_language tmp_dir inputContent remote fs0).deleted =
        (translate_subtitle prompt subtitle_file target_dir from_language
          target_language tmp_dir inputContent remote fs0).uploaded) ∧
    ((translate_subtitle prompt subtitle_file target_dir from_language
        target_language tmp_dir inputContent remote fs0).result ≠ none →
      (translate_subtitle prompt subtitle_file target_dir from_language
        target_language tmp_dir inputContent remote fs0).deleted =
        (translate_subtitle prompt subtitle_file target_dir from_language
          target_language tmp_dir inputContent remote fs0).uploaded ∨
      ∃ f, (translate_subtitle prompt subtitle_file target_dir from_language
          target_language tmp_dir inputContent remote fs0).uploaded =
        (translate_subtitle prompt subtitle_file target_dir from_language
          target_language tmp_dir inputContent remote fs0).deleted ++ [f]) := by
  rcases translate_subtitle_cases prompt subtitle_file target_dir
      from_language target_language tmp_dir inputContent remote fs0 with
    ⟨e, heq⟩ | ⟨st, e, f, heq, hinv⟩ | ⟨st, heq, hinv⟩
  · rw [heq]
    exact ⟨fun hh => absurd hh (Option.some_ne_none e), fun _ => Or.inl rfl⟩
  · rw [heq]
    exact ⟨fun hh => absurd hh (Option.some_ne_none e),
      fun _ => Or.inr ⟨f, hinv⟩⟩
  · rw [heq]
    exact ⟨fun _ => hinv, fun hh => absurd rfl hh⟩

/-- Claim C7 amended witness at a concrete successful run: every uploaded
handle was deleted. -/
theorem C7_delete_amended_witness :
    (translate_subtitle "p" "a.srt" "out" "en" "zh" "tmp"
        "1\n00:00:00,000 --> 00:00:01,000\nhi\n\n"
        (fun _ => "1\n00:00:00,500 --> 00:00:01,000\nHI\n\n") []).deleted =
      (translate_subtitle "p" "a.srt" "out" "en" "zh" "tmp"
        "1\n00:00:00,000 --> 00:00:01,000\nhi\n\n"
        (fun _ => "1\n00:00:00,500 --> 00:00:01,000\nHI\n\n") []).uploaded :=
  (C7_delete_amended "p" "a.srt" "out" "en" "zh" "tmp"
    "1\n00:00:00,000 --> 00:00:01,000\nhi\n\n"
    (fun _ => "1\n00:00:00,500 --> 00:00:01,000\nHI\n\n") []).1 (by decide)

end SubTrans
